import Mathlib

/-!
Verification development for the procedural-terrain repository
(deterministic random source, 2D gradient noise field, grid mesh
generator, 4x4 matrix math, and the demo glue code in `src/index.ts`).

The modules `xor_shift_rng`, `perlin_noise_2d`, `mesh` and `math` are
imported by `src/index.ts` but their sources are not part of the visible
tree, so they are modelled from the specification; `src/index.ts` itself
(the demo wiring: cloud-intensity arithmetic, colour-buffer loop, sky
projection helper) is embedded directly from the source.

All machine floats are idealised as rationals; 32-bit machine words are
naturals taken modulo 2^32.
-/

namespace XorShiftRng

/-- The 32-bit word range. -/
def m32 : ℕ := 2 ^ 32

/-- Modelled from the spec: `next()` advances the internal state via a
fast xorshift recurrence (state XORed with shifted copies of itself, a
standard xorshift32 variant with shifts 13/17/5) and returns the new
state word; the spec leaves the exact shift constants open, so the
standard well-documented constants are used. -/
def xsNext (x : ℕ) : ℕ :=
  let a := (x ^^^ (x <<< 13)) % m32
  let b := a ^^^ (a >>> 17)
  (b ^^^ (b <<< 5)) % m32

/-- Modelled from the spec: the fixed non-zero constant that a zero seed
is silently coerced to. -/
def seedFallback : ℕ := 2463534242

/-- Modelled from the spec: `withSeed(seed)` deterministically builds the
generator state; a zero seed is coerced to the fixed non-zero constant
rather than surfaced as an error. -/
def withSeed (s : ℕ) : ℕ :=
  if s % m32 = 0 then seedFallback else s % m32

/-- The non-zero 32-bit state space. -/
def nzStates : Set ℕ := { x : ℕ | x ≠ 0 ∧ x < m32 }

end XorShiftRng

namespace PerlinNoise2D

/-- Modelled from the spec: the degree-5 fade curve
`6 t^5 - 15 t^4 + 10 t^3` with zero first and second derivative at the
cell boundaries. -/
def fade (t : ℚ) : ℚ := t * t * t * (t * (t * 6 - 15) + 10)

/-- Linear interpolation `a + t (b - a)`. -/
def lerp (t a b : ℚ) : ℚ := a + t * (b - a)

/-- Modelled from the spec: the dot product between the pseudo-random
gradient direction selected by the hash `h` (one of the four unit lattice
directions) and the corner-to-sample offset `(dx, dy)`. -/
def grad (h : ℕ) (dx dy : ℚ) : ℚ :=
  if h % 4 = 0 then dx
  else if h % 4 = 1 then -dx
  else if h % 4 = 2 then dy
  else -dy

/-- Clamp a rational into the closed unit interval. -/
def clamp01 (q : ℚ) : ℚ := max 0 (min 1 q)

/-- Modelled from the spec: the noise field's entire persisted state is a
permutation table over a fixed lattice size of 256 entries, duplicated
once so lookups avoid modulo operations. -/
structure Field where
  permTable : List ℕ

/-- Doubled-table lookup (total via a default of 0). -/
def Field.p2 (f : Field) (k : ℕ) : ℕ := f.permTable.getD k 0

/-- Normalisation applied by `noise01` to a raw noise value:
`(n + 1) / 2` clamped to the closed unit interval. -/
def normalize01 (n : ℚ) : ℚ := clamp01 ((n + 1) / 2)

/-- Modelled from the spec: `noise(x, y)` identifies the surrounding
integer lattice cell, hashes the four corner coordinates through the
doubled permutation table to gradient directions, takes the dot product
of each gradient with the corner-to-sample vector, and blends the four
contributions with the fade curve via two nested linear interpolations;
lattice indices wrap via the doubled permutation table. -/
def Field.noise (f : Field) (x y : ℚ) : ℚ :=
  let xi : ℕ := ((⌊x⌋ : ℤ).emod 256).toNat
  let yi : ℕ := ((⌊y⌋ : ℤ).emod 256).toNat
  let xf : ℚ := x - ⌊x⌋
  let yf : ℚ := y - ⌊y⌋
  let u := fade xf
  let v := fade yf
  let aa := f.p2 (f.p2 xi + yi)
  let ab := f.p2 (f.p2 xi + yi + 1)
  let ba := f.p2 (f.p2 (xi + 1) + yi)
  let bb := f.p2 (f.p2 (xi + 1) + yi + 1)
  let x1 := lerp u (grad aa xf yf) (grad ba (xf - 1) yf)
  let x2 := lerp u (grad ab xf (yf - 1)) (grad bb (xf - 1) (yf - 1))
  lerp v x1 x2

/-- Modelled from the spec: `noise01(x, y)` is `(noise(x,y) + 1) / 2`
clamped to the closed unit interval to absorb overshoot. -/
def Field.noise01 (f : Field) (x y : ℚ) : ℚ := normalize01 (f.noise x y)

/-- Swap two positions of a list (total via defaults). -/
def swapL (l : List ℕ) (a b : ℕ) : List ℕ :=
  let xa := l.getD a 0
  let xb := l.getD b 0
  (l.set a xb).set b xa

/-- Modelled from the spec: the Fisher-Yates shuffle of the permutation
table, driven by Random-Source swaps; `n` counts the remaining positions
to visit from the top, and the RNG state is threaded explicitly. -/
def fyAux : ℕ → List ℕ → ℕ → List ℕ × ℕ
  | 0, l, st => (l, st)
  | n + 1, l, st =>
    let st' := XorShiftRng.xsNext st
    fyAux n (swapL l (n + 1) (st' % (n + 2))) st'

/-- Modelled from the spec: construct the noise field from a RandomState
by shuffling the identity permutation over 256 entries and duplicating
the table once; returns the field together with the advanced RNG state. -/
def mk (st : ℕ) : Field × ℕ :=
  let (l, st') := fyAux 255 (List.range 256) st
  (⟨l ++ l⟩, st')

/-- First construction of a noise field from `withSeed s` (the demo
builds its field this way). -/
def fieldA (s : ℕ) : Field := (mk (XorShiftRng.withSeed s)).1

/-- Second, independent construction of a noise field from
`withSeed s`. -/
def fieldB (s : ℕ) : Field := (mk (XorShiftRng.withSeed s)).1

end PerlinNoise2D

namespace Matrix44

/-- A 4x4 matrix of (idealised) floats, indexed row then column. -/
def Mat : Type := Fin 4 → Fin 4 → ℚ

/-- The mathematical matrix product, computed into a separate,
non-aliased result (the reference the spec compares against). -/
def matMulSpec (a b : Mat) : Mat :=
  fun i j => ∑ k : Fin 4, a i k * b k j

/-- Modelled from the spec: `setMultiply(a, b)` sets self to the product
a·b, computing every entry into a temporary buffer from the source
operands before any destination element is written, then copying the
buffer over the receiver (which fully overwrites its prior contents). -/
def setMultiply (self a b : Mat) : Mat :=
  let temp : Mat := fun i j =>
    a i 0 * b 0 j + a i 1 * b 1 j + a i 2 * b 2 j + a i 3 * b 3 j
  fun i j => temp i j

end Matrix44

namespace Mesh3D

/-- Modelled from the spec: the grid configuration record
`{cols, rows, x, y, z, width, height}`. -/
structure GridConfig where
  cols : ℕ
  rows : ℕ
  x : ℚ
  y : ℚ
  z : ℚ
  width : ℚ
  height : ℚ

/-- A successfully constructed mesh wraps its validated, immutable
configuration. -/
structure Mesh where
  cfg : GridConfig

/-- The configuration-error message raised at construction. -/
def configErrorMsg : String := "invalid grid configuration"

/-- Modelled from the spec: construction validates
`cols >= 2, rows >= 2, width > 0, height > 0` and fails with a
configuration error (before touching any buffer) otherwise. -/
def mkMesh3D (c : GridConfig) : Except String Mesh :=
  if c.cols < 2 ∨ c.rows < 2 ∨ c.width ≤ 0 ∨ c.height ≤ 0 then
    Except.error configErrorMsg
  else
    Except.ok ⟨c⟩

/-- Row-major vertex index of grid position (row i, col j). -/
def vIdx (c : GridConfig) (i j : ℕ) : ℕ := i * c.cols + j

/-- `numVertices()` - the grid has rows × cols vertices. -/
def numVertices (c : GridConfig) : ℕ := c.rows * c.cols

/-- Modelled from the spec: the two triangles covering the quad of
interior cell (i, j), with the single fixed winding order used across
the whole grid. -/
def quadTris (c : GridConfig) (i j : ℕ) : List (ℕ × ℕ × ℕ) :=
  [(vIdx c i j, vIdx c (i + 1) j, vIdx c i (j + 1)),
   (vIdx c i (j + 1), vIdx c (i + 1) j, vIdx c (i + 1) (j + 1))]

/-- Modelled from the spec: all emitted triangles, cell by cell. -/
def triangles (c : GridConfig) : List (ℕ × ℕ × ℕ) :=
  (List.range (c.rows - 1)).flatMap fun i =>
    (List.range (c.cols - 1)).flatMap fun j => quadTris c i j

/-- `triangleIndexBuffer()` - the flat index buffer, three indices per
triangle. -/
def triangleIndexBuffer (c : GridConfig) : List ℕ :=
  (triangles c).flatMap fun t => [t.1, t.2.1, t.2.2]

/-- Modelled from the spec: `lineStripIndexBuffer()` - a boustrophedon
traversal row by row, reversing direction on each row so the strip stays
connected. -/
def lineStripIndexBuffer (c : GridConfig) : List ℕ :=
  (List.range c.rows).flatMap fun i =>
    (List.range c.cols).map fun j =>
      vIdx c i (if i % 2 = 0 then j else c.cols - 1 - j)

/-- Modelled from the spec: planar X of grid column j, by linear
interpolation across `[x, x + width]`. -/
def vertexX (c : GridConfig) (j : ℕ) : ℚ :=
  c.x + (j : ℚ) * (c.width / ((c.cols - 1 : ℕ) : ℚ))

/-- Modelled from the spec: planar Z of grid row i, by linear
interpolation across `[z, z + height]`. -/
def vertexZ (c : GridConfig) (i : ℕ) : ℚ :=
  c.z + (i : ℚ) * (c.height / ((c.rows - 1 : ℕ) : ℚ))

/-- Projected X of the vertex with flat index k. -/
def posX (c : GridConfig) (k : ℕ) : ℚ := vertexX c (k % c.cols)

/-- Projected Z of the vertex with flat index k. -/
def posZ (c : GridConfig) (k : ℕ) : ℚ := vertexZ c (k / c.cols)

/-- Orientation of a triangle via the 2D cross product of its projected
x/z coordinates. -/
def cross2 (c : GridConfig) (t : ℕ × ℕ × ℕ) : ℚ :=
  (posX c t.2.1 - posX c t.1) * (posZ c t.2.2 - posZ c t.1) -
    (posZ c t.2.1 - posZ c t.1) * (posX c t.2.2 - posX c t.1)

/-- The demo's 10-row by 5-column scenario from the spec. -/
def demoCfg10x5 : GridConfig := ⟨5, 10, 0, 0, 0, 2, 2⟩

/-- A 3-row by 3-column scenario with width and height 2. -/
def demoCfg3x3 : GridConfig := ⟨3, 3, 0, 0, 0, 2, 2⟩

end Mesh3D

namespace Demo

/-- JavaScript `Math.min` applied to a single argument returns that
argument unchanged. -/
def jsMinOne (x : ℚ) : ℚ := x

/-- The cloud-intensity value `n` computed in `perlinTest`'s tick loop
(src/index.ts line 236):
`Math.min(0.9 * pow(noiseHighCloud, 6) + 1.2 * pow(noiseLowCloud, 1) +
0.6 * pow(noiseVeryLowCloud, 1))`. -/
def cloudIntensity (noiseHighCloud noiseLowCloud noiseVeryLowCloud : ℚ) : ℚ :=
  jsMinOne (9/10 * noiseHighCloud ^ 6 + 12/10 * noiseLowCloud ^ 1 +
    6/10 * noiseVeryLowCloud ^ 1)

/-- The colour triple written by `runDemo`'s colour loop
(src/index.ts lines 124-132): the snow branch when
`height > 0.6 + noiseSnowLine * 0.1`, the terrain branch otherwise. -/
def colourAt (height noiseSnowLine noiseR noiseG noiseB noiseSnow1
    noiseSnow2 : ℚ) : ℚ × ℚ × ℚ :=
  if height > 6/10 + noiseSnowLine * (1/10) then
    (7/10 + noiseSnow1 * (1/10), 7/10 + noiseSnow1 * (1/10),
      8/10 + noiseSnow2 * (2/10))
  else
    (1/10 + noiseR * (4/10), 2/10 + noiseG * (5/10), noiseB * (2/10))

/-- The base write offset `3 * (i * cols + j)` of the colour loop. -/
def colourBase (cols i j : ℕ) : ℕ := 3 * (i * cols + j)

/-- The divisor `fakeY = y + horizDrop` used by the `sky` helper
(src/index.ts line 270). -/
def skyDivisor (horizDrop y : ℚ) : ℚ := y + horizDrop

/-- The `sky` helper (src/index.ts lines 269-274). -/
def sky (focalLength skyHeight horizDrop x y : ℚ) : ℚ × ℚ :=
  ((x * skyHeight) / skyDivisor horizDrop y,
    (skyHeight * focalLength) / skyDivisor horizDrop y)

/-- The screen-space y computed in `perlinTest`'s tick loop
(src/index.ts line 221): `1 - ((i / pxHeight) * 2)`. -/
def tickY (pxHeight : ℚ) (i : ℕ) : ℚ := 1 - ((i : ℚ) / pxHeight) * 2

end Demo

namespace XorShiftRng

/-- The step `x ↦ (x ^^^ (x <<< k)) % 2^32` is injective on 32-bit words
(for a positive shift): bit `i` of the image depends on bit `i` of the
argument and on strictly lower bits only. -/
theorem xorShiftLeft_injOn (k : ℕ) (hk : 0 < k) (x y : ℕ)
    (hx : x < m32) (hy : y < m32)
    (h : (x ^^^ (x <<< k)) % m32 = (y ^^^ (y <<< k)) % m32) : x = y := by
  apply Nat.eq_of_testBit_eq
  intro i
  induction i using Nat.strong_induction_on with
  | _ i ih =>
    rcases Nat.lt_or_ge i 32 with hi | hi
    · have hb := congrArg (fun z => z.testBit i) h
      simp only [m32, Nat.testBit_mod_two_pow, Nat.testBit_xor,
        Nat.testBit_shiftLeft] at hb
      rcases Nat.lt_or_ge i k with hik | hik
      · have hik' : ¬ (k ≤ i) := Nat.not_le_of_lt hik
        simp only [hi, hik', ge_iff_le, decide_eq_true_eq,
          decide_eq_false_iff_not] at hb
        simpa [hi, hik'] using hb
      · have hik' : i - k < i := by omega
        have hlow := ih (i - k) hik'
        simp only [hi, hik, ge_iff_le, hlow] at hb
        have hb' : (x.testBit i ^^ y.testBit (i - k)) =
            (y.testBit i ^^ y.testBit (i - k)) := by
          simpa [hi, hik] using hb
        cases hv : y.testBit (i - k) <;> rw [hv] at hb' <;>
          simpa using hb'
    · have h1 : x.testBit i = false := by
        apply Nat.testBit_lt_two_pow
        calc x < 2 ^ 32 := hx
          _ ≤ 2 ^ i := Nat.pow_le_pow_right (by norm_num) hi
      have h2 : y.testBit i = false := by
        apply Nat.testBit_lt_two_pow
        calc y < 2 ^ 32 := hy
          _ ≤ 2 ^ i := Nat.pow_le_pow_right (by norm_num) hi
      rw [h1, h2]

/-- The step `x ↦ x ^^^ (x >>> k)` is injective on 32-bit words (for a
positive shift): bit `i` of the image depends on bit `i` of the argument
and on strictly higher bits only, which vanish above bit 31. -/
theorem xorShiftRight_injOn (k : ℕ) (hk : 0 < k) (x y : ℕ)
    (hx : x < m32) (hy : y < m32)
    (h : x ^^^ (x >>> k) = y ^^^ (y >>> k)) : x = y := by
  have key : ∀ d i, 32 ≤ i + d → x.testBit i = y.testBit i := by
    intro d
    induction d with
    | zero =>
      intro i hi
      have h1 : x.testBit i = false := by
        apply Nat.testBit_lt_two_pow
        calc x < 2 ^ 32 := hx
          _ ≤ 2 ^ i := Nat.pow_le_pow_right (by norm_num) (by omega)
      have h2 : y.testBit i = false := by
        apply Nat.testBit_lt_two_pow
        calc y < 2 ^ 32 := hy
          _ ≤ 2 ^ i := Nat.pow_le_pow_right (by norm_num) (by omega)
      rw [h1, h2]
    | succ d ihd =>
      intro i hi
      rcases Nat.lt_or_ge i 32 with hlt | hge
      · have hb := congrArg (fun z => z.testBit i) h
        simp only [Nat.testBit_xor, Nat.testBit_shiftRight] at hb
        have hhigh : x.testBit (k + i) = y.testBit (k + i) := by
          apply ihd
          omega
        rw [hhigh] at hb
        cases hv : y.testBit (k + i) <;> rw [hv] at hb <;>
          simpa using hb
      · have h1 : x.testBit i = false := by
          apply Nat.testBit_lt_two_pow
          calc x < 2 ^ 32 := hx
            _ ≤ 2 ^ i := Nat.pow_le_pow_right (by norm_num) hge
        have h2 : y.testBit i = false := by
          apply Nat.testBit_lt_two_pow
          calc y < 2 ^ 32 := hy
            _ ≤ 2 ^ i := Nat.pow_le_pow_right (by norm_num) hge
        rw [h1, h2]
  exact Nat.eq_of_testBit_eq (fun i => key 32 i (by omega))

/-- `xsNext` stays inside the 32-bit range. -/
theorem xsNext_lt (x : ℕ) : xsNext x < m32 := by
  have : 0 < m32 := by norm_num [m32]
  exact Nat.mod_lt _ this

/-- `xsNext` fixes zero (the degenerate state the non-zero invariant
protects against). -/
theorem xsNext_zero : xsNext 0 = 0 := by decide

/-- `xsNext` is injective on 32-bit words: each of its three xorshift
steps is. -/
theorem xsNext_injOn (x y : ℕ) (hx : x < m32) (hy : y < m32)
    (h : xsNext x = xsNext y) : x = y := by
  have hm : 0 < m32 := by norm_num [m32]
  set a1 := (x ^^^ (x <<< 13)) % m32 with ha1
  set a2 := (y ^^^ (y <<< 13)) % m32 with ha2
  have ha1lt : a1 < m32 := Nat.mod_lt _ hm
  have ha2lt : a2 < m32 := Nat.mod_lt _ hm
  set b1 := a1 ^^^ (a1 >>> 17) with hb1
  set b2 := a2 ^^^ (a2 >>> 17) with hb2
  have hshr : ∀ z : ℕ, z >>> 17 ≤ z := by
    intro z
    rw [Nat.shiftRight_eq_div_pow]
    exact Nat.div_le_self _ _
  have hb1lt : b1 < m32 := by
    apply Nat.xor_lt_two_pow ha1lt
    calc a1 >>> 17 ≤ a1 := hshr a1
      _ < m32 := ha1lt
  have hb2lt : b2 < m32 := by
    apply Nat.xor_lt_two_pow ha2lt
    calc a2 >>> 17 ≤ a2 := hshr a2
      _ < m32 := ha2lt
  have hstep3 : b1 = b2 := by
    apply xorShiftLeft_injOn 5 (by norm_num) b1 b2 hb1lt hb2lt
    simpa [xsNext, ha1, ha2, hb1, hb2] using h
  have hstep2 : a1 = a2 := by
    apply xorShiftRight_injOn 17 (by norm_num) a1 a2 ha1lt ha2lt
    simpa [hb1, hb2] using hstep3
  exact xorShiftLeft_injOn 13 (by norm_num) x y hx hy hstep2

/-- A non-zero 32-bit state stays non-zero under `xsNext`. -/
theorem xsNext_ne_zero (x : ℕ) (hx0 : x ≠ 0) (hx : x < m32) :
    xsNext x ≠ 0 := by
  intro hz
  apply hx0
  apply xsNext_injOn x 0 hx (by norm_num [m32])
  rw [hz, xsNext_zero]

/-- The non-zero state space is finite. -/
theorem nzStates_finite : nzStates.Finite :=
  (Set.finite_Iio m32).subset (fun _ hx => hx.2)

/-- `xsNext` maps the non-zero state space into itself. -/
theorem nzStates_mapsTo : Set.MapsTo xsNext nzStates nzStates :=
  fun x hx => ⟨xsNext_ne_zero x hx.1 hx.2, xsNext_lt x⟩

end XorShiftRng

namespace PerlinNoise2D

/-- The fade curve maps the unit interval into itself. -/
theorem fade_mem (t : ℚ) (h0 : 0 ≤ t) (h1 : t ≤ 1) :
    0 ≤ fade t ∧ fade t ≤ 1 := by
  constructor
  · unfold fade
    nlinarith [sq_nonneg t, sq_nonneg (t - 1), mul_nonneg h0 h0,
      mul_nonneg (mul_nonneg h0 h0) h0]
  · unfold fade
    nlinarith [sq_nonneg (1 - t), mul_nonneg h0 h0,
      mul_nonneg (mul_nonneg h0 h0) h0,
      mul_nonneg (mul_nonneg (sub_nonneg.mpr h1) (sub_nonneg.mpr h1))
        (sub_nonneg.mpr h1)]

/-- Linear interpolation with parameter in `[0, 1]` stays within
`[-1, 1]` when both endpoints do. -/
theorem lerp_mem (t a b : ℚ) (ht0 : 0 ≤ t) (ht1 : t ≤ 1)
    (ha : -1 ≤ a ∧ a ≤ 1) (hb : -1 ≤ b ∧ b ≤ 1) :
    -1 ≤ lerp t a b ∧ lerp t a b ≤ 1 := by
  unfold lerp
  constructor
  · nlinarith [ha.1, ha.2, hb.1, hb.2]
  · nlinarith [ha.1, ha.2, hb.1, hb.2]

/-- Each corner dot product lies in `[-1, 1]` when both offset
components do. -/
theorem grad_mem (h : ℕ) (dx dy : ℚ) (hx : -1 ≤ dx ∧ dx ≤ 1)
    (hy : -1 ≤ dy ∧ dy ≤ 1) :
    -1 ≤ grad h dx dy ∧ grad h dx dy ≤ 1 := by
  unfold grad
  rcases hx with ⟨hx0, hx1⟩
  rcases hy with ⟨hy0, hy1⟩
  split
  · exact ⟨hx0, hx1⟩
  · split
    · constructor <;> linarith
    · split
      · exact ⟨hy0, hy1⟩
      · constructor <;> linarith

/-- Raw noise always lies in `[-1, 1]`, for every field and every
coordinate pair. -/
theorem noise_mem (f : Field) (x y : ℚ) :
    -1 ≤ f.noise x y ∧ f.noise x y ≤ 1 := by
  have hxf0 : (0 : ℚ) ≤ x - ⌊x⌋ := by
    have := Int.floor_le x
    linarith
  have hxf1 : x - ⌊x⌋ ≤ 1 := by
    have := Int.lt_floor_add_one x
    linarith
  have hyf0 : (0 : ℚ) ≤ y - ⌊y⌋ := by
    have := Int.floor_le y
    linarith
  have hyf1 : y - ⌊y⌋ ≤ 1 := by
    have := Int.lt_floor_add_one y
    linarith
  have hxm : -1 ≤ x - ⌊x⌋ ∧ x - ⌊x⌋ ≤ 1 := ⟨by linarith, hxf1⟩
  have hxm1 : -1 ≤ x - ⌊x⌋ - 1 ∧ x - ⌊x⌋ - 1 ≤ 1 :=
    ⟨by linarith, by linarith⟩
  have hym : -1 ≤ y - ⌊y⌋ ∧ y - ⌊y⌋ ≤ 1 := ⟨by linarith, hyf1⟩
  have hym1 : -1 ≤ y - ⌊y⌋ - 1 ∧ y - ⌊y⌋ - 1 ≤ 1 :=
    ⟨by linarith, by linarith⟩
  have hu := fade_mem (x - ⌊x⌋) hxf0 hxf1
  have hv := fade_mem (y - ⌊y⌋) hyf0 hyf1
  unfold Field.noise
  apply lerp_mem _ _ _ hv.1 hv.2
  · exact lerp_mem _ _ _ hu.1 hu.2
      (grad_mem _ _ _ hxm hym) (grad_mem _ _ _ hxm1 hym)
  · exact lerp_mem _ _ _ hu.1 hu.2
      (grad_mem _ _ _ hxm hym1) (grad_mem _ _ _ hxm1 hym1)

end PerlinNoise2D

namespace Mesh3D

/-- Length of a flatMap whose pieces all have one fixed length. -/
theorem length_flatMap_const {α β : Type} (l : List α) (f : α → List β)
    (n : ℕ) (h : ∀ a ∈ l, (f a).length = n) :
    (l.flatMap f).length = l.length * n := by
  induction l with
  | nil => simp
  | cons a t ih =>
    simp only [List.flatMap_cons, List.length_append, List.length_cons]
    rw [h a (List.mem_cons_self a t),
      ih (fun b hb => h b (List.mem_cons_of_mem a hb))]
    ring

/-- The triangle list has `(rows-1)*(cols-1)*2` entries. -/
theorem triangles_length (c : GridConfig) :
    (triangles c).length = (c.rows - 1) * (c.cols - 1) * 2 := by
  unfold triangles
  rw [length_flatMap_const _ _ ((c.cols - 1) * 2)]
  · simp [Nat.mul_assoc]
  · intro i _
    rw [length_flatMap_const _ _ 2]
    · simp
    · intro j _
      rfl

/-- Membership in the triangle list pins the generating cell and the two
possible triangle shapes. -/
theorem mem_triangles (c : GridConfig) (t : ℕ × ℕ × ℕ)
    (ht : t ∈ triangles c) :
    ∃ i j, i < c.rows - 1 ∧ j < c.cols - 1 ∧
      (t = (vIdx c i j, vIdx c (i + 1) j, vIdx c i (j + 1)) ∨
       t = (vIdx c i (j + 1), vIdx c (i + 1) j,
         vIdx c (i + 1) (j + 1))) := by
  unfold triangles at ht
  rw [List.mem_flatMap] at ht
  obtain ⟨i, hi, ht⟩ := ht
  rw [List.mem_flatMap] at ht
  obtain ⟨j, hj, ht⟩ := ht
  rw [List.mem_range] at hi
  rw [List.mem_range] at hj
  refine ⟨i, j, hi, hj, ?_⟩
  simpa [quadTris] using ht

/-- Any in-grid vertex index is below the vertex count. -/
theorem vIdx_lt (c : GridConfig) (i j : ℕ) (hi : i < c.rows)
    (hj : j < c.cols) : vIdx c i j < c.rows * c.cols := by
  unfold vIdx
  calc i * c.cols + j < i * c.cols + c.cols := by omega
    _ = (i + 1) * c.cols := by ring
    _ ≤ c.rows * c.cols := Nat.mul_le_mul_right _ hi

/-- Projected X of an in-grid vertex index recovers its column. -/
theorem posX_vIdx (c : GridConfig) (i j : ℕ) (hj : j < c.cols) :
    posX c (vIdx c i j) = vertexX c j := by
  unfold posX vIdx
  rw [Nat.mul_comm i c.cols, Nat.mul_add_mod, Nat.mod_eq_of_lt hj]

/-- Projected Z of an in-grid vertex index recovers its row. -/
theorem posZ_vIdx (c : GridConfig) (i j : ℕ) (hj : j < c.cols) :
    posZ c (vIdx c i j) = vertexZ c i := by
  have hc : 0 < c.cols := by omega
  unfold posZ vIdx
  rw [Nat.mul_comm i c.cols, Nat.mul_add_div hc,
    Nat.div_eq_of_lt hj, Nat.add_zero]

/-- Consecutive columns are one x-step apart. -/
theorem vertexX_succ (c : GridConfig) (j : ℕ) :
    vertexX c (j + 1) - vertexX c j =
      c.width / ((c.cols - 1 : ℕ) : ℚ) := by
  unfold vertexX
  push_cast
  ring

/-- Consecutive rows are one z-step apart. -/
theorem vertexZ_succ (c : GridConfig) (i : ℕ) :
    vertexZ c (i + 1) - vertexZ c i =
      c.height / ((c.rows - 1 : ℕ) : ℚ) := by
  unfold vertexZ
  push_cast
  ring

/-- Both triangles of every interior quad have the same cross product
`-(z-step · x-step)`. -/
theorem cross2_quadTris (c : GridConfig) (i j : ℕ)
    (hi : i + 1 < c.rows) (hj : j + 1 < c.cols) (t : ℕ × ℕ × ℕ)
    (ht : t ∈ quadTris c i j) :
    cross2 c t = -((c.height / ((c.rows - 1 : ℕ) : ℚ)) *
      (c.width / ((c.cols - 1 : ℕ) : ℚ))) := by
  have hj0 : j < c.cols := by omega
  have ex : vertexX c (j + 1) =
      vertexX c j + c.width / ((c.cols - 1 : ℕ) : ℚ) := by
    have := vertexX_succ c j
    linarith
  have ez : vertexZ c (i + 1) =
      vertexZ c i + c.height / ((c.rows - 1 : ℕ) : ℚ) := by
    have := vertexZ_succ c i
    linarith
  simp only [quadTris, List.mem_cons, List.not_mem_nil, or_false] at ht
  rcases ht with rfl | rfl
  · unfold cross2
    dsimp only
    rw [posX_vIdx c (i + 1) j hj0, posX_vIdx c i j hj0,
      posX_vIdx c i (j + 1) hj,
      posZ_vIdx c (i + 1) j hj0, posZ_vIdx c i j hj0,
      posZ_vIdx c i (j + 1) hj]
    rw [ex, ez]
    ring
  · unfold cross2
    dsimp only
    rw [posX_vIdx c (i + 1) j hj0, posX_vIdx c i (j + 1) hj,
      posX_vIdx c (i + 1) (j + 1) hj,
      posZ_vIdx c (i + 1) j hj0, posZ_vIdx c i (j + 1) hj,
      posZ_vIdx c (i + 1) (j + 1) hj]
    rw [ex, ez]
    ring

end Mesh3D

/-- C1: `Matrix44.setMultiply(a, b)` sets the receiver to the product
a·b, and the result is the mathematically correct product (the one
computed into a separate non-aliased matrix) even when the receiver is
the same instance as `a` or as `b`. -/
theorem C1_setMultiply_aliasing (a b self : Matrix44.Mat) :
    Matrix44.setMultiply self a b = Matrix44.matMulSpec a b ∧
    Matrix44.setMultiply a a b = Matrix44.matMulSpec a b ∧
    Matrix44.setMultiply b a b = Matrix44.matMulSpec a b := by
  refine ⟨?_, ?_, ?_⟩ <;>
  · funext i j
    simp [Matrix44.setMultiply, Matrix44.matMulSpec, Fin.sum_univ_four]

/-- C2: two NoiseFields each constructed from `RandomState.withSeed(s)`
produce bit-for-bit identical `noise(x, y)` value sequences for every
fixed sequence of queries; the output depends only on (seed, x, y). -/
theorem C2_noise_deterministic (s : ℕ) (qs : List (ℚ × ℚ)) :
    qs.map (fun q => (PerlinNoise2D.fieldA s).noise q.1 q.2) =
      qs.map (fun q => (PerlinNoise2D.fieldB s).noise q.1 q.2) := rfl

/-- C3: for every coordinate pair (arbitrarily large or negative),
`noise(x, y)` lies in `[-1, 1]`, `noise01(x, y)` is `(noise + 1) / 2`
clamped into `[0, 1]`, and the normalization is exact at the boundary
(`-1 ↦ 0`, `1 ↦ 1`); both operations are total functions of their
arguments. -/
theorem C3_noise_range (f : PerlinNoise2D.Field) (x y : ℚ) :
    -1 ≤ f.noise x y ∧ f.noise x y ≤ 1 ∧
    f.noise01 x y = PerlinNoise2D.clamp01 ((f.noise x y + 1) / 2) ∧
    0 ≤ f.noise01 x y ∧ f.noise01 x y ≤ 1 ∧
    PerlinNoise2D.normalize01 (-1) = 0 ∧
    PerlinNoise2D.normalize01 1 = 1 := by
  obtain ⟨hlo, hhi⟩ := PerlinNoise2D.noise_mem f x y
  refine ⟨hlo, hhi, rfl, ?_, ?_,
    by norm_num [PerlinNoise2D.normalize01, PerlinNoise2D.clamp01,
      min_def, max_def],
    by norm_num [PerlinNoise2D.normalize01, PerlinNoise2D.clamp01,
      min_def, max_def]⟩
  · exact le_max_left 0 _
  · exact max_le (by norm_num) (min_le_left 1 _)

/-- C4: for every grid with `cols ≥ 2` and `rows ≥ 2`,
`triangleIndexBuffer()` has length `(rows-1)*(cols-1)*6`, and every
index in it and in `lineStripIndexBuffer()` is below `rows*cols`. -/
theorem C4_index_buffers_sized_and_valid (c : Mesh3D.GridConfig)
    (h2c : 2 ≤ c.cols) (h2r : 2 ≤ c.rows) :
    (Mesh3D.triangleIndexBuffer c).length =
      (c.rows - 1) * (c.cols - 1) * 6 ∧
    (∀ k ∈ Mesh3D.triangleIndexBuffer c, k < c.rows * c.cols) ∧
    (∀ k ∈ Mesh3D.lineStripIndexBuffer c, k < c.rows * c.cols) := by
  refine ⟨?_, ?_, ?_⟩
  · unfold Mesh3D.triangleIndexBuffer
    rw [Mesh3D.length_flatMap_const (Mesh3D.triangles c)
      (fun t => [t.1, t.2.1, t.2.2]) 3 (fun t _ => rfl),
      Mesh3D.triangles_length]
    ring
  · intro k hk
    unfold Mesh3D.triangleIndexBuffer at hk
    rw [List.mem_flatMap] at hk
    obtain ⟨t, ht, hkt⟩ := hk
    obtain ⟨i, j, hi, hj, hshape⟩ := Mesh3D.mem_triangles c t ht
    have hi1 : i < c.rows := by omega
    have hi2 : i + 1 < c.rows := by omega
    have hj1 : j < c.cols := by omega
    have hj2 : j + 1 < c.cols := by omega
    rcases hshape with rfl | rfl <;>
      simp only [List.mem_cons, List.not_mem_nil, or_false] at hkt <;>
      rcases hkt with rfl | rfl | rfl <;>
      first
        | exact Mesh3D.vIdx_lt c _ _ hi1 hj1
        | exact Mesh3D.vIdx_lt c _ _ hi2 hj1
        | exact Mesh3D.vIdx_lt c _ _ hi1 hj2
        | exact Mesh3D.vIdx_lt c _ _ hi2 hj2
  · intro k hk
    unfold Mesh3D.lineStripIndexBuffer at hk
    rw [List.mem_flatMap] at hk
    obtain ⟨i, hi, hk⟩ := hk
    rw [List.mem_map] at hk
    obtain ⟨j, hj, rfl⟩ := hk
    rw [List.mem_range] at hi
    rw [List.mem_range] at hj
    refine Mesh3D.vIdx_lt c _ _ hi ?_
    split <;> omega

/-- C4 witness: the `rows = 10`, `cols = 5` scenario - buffer length
216, all triangle indices below the 50 vertices. -/
theorem C4_index_buffers_witness :
    2 ≤ Mesh3D.demoCfg10x5.cols ∧ 2 ≤ Mesh3D.demoCfg10x5.rows ∧
    (Mesh3D.triangleIndexBuffer Mesh3D.demoCfg10x5).length = 216 ∧
    Mesh3D.numVertices Mesh3D.demoCfg10x5 = 50 ∧
    ∀ k ∈ Mesh3D.triangleIndexBuffer Mesh3D.demoCfg10x5, k < 50 := by
  refine ⟨by decide, by decide, ?_, by decide, ?_⟩
  · have h := (C4_index_buffers_sized_and_valid Mesh3D.demoCfg10x5
      (by decide) (by decide)).1
    simpa [Mesh3D.demoCfg10x5] using h
  · intro k hk
    have h := (C4_index_buffers_sized_and_valid Mesh3D.demoCfg10x5
      (by decide) (by decide)).2.1 k hk
    simpa [Mesh3D.demoCfg10x5] using h

/-- C5: for every valid grid configuration, every triangle emitted by
`triangleIndexBuffer()` has the same orientation sign (2D cross product
of projected x/z coordinates) as every other: all cross products are
negative, so any two have a positive product. -/
theorem C5_winding_uniform (c : Mesh3D.GridConfig)
    (h2c : 2 ≤ c.cols) (h2r : 2 ≤ c.rows)
    (hw : 0 < c.width) (hh : 0 < c.height) :
    (∀ t ∈ Mesh3D.triangles c, Mesh3D.cross2 c t < 0) ∧
    (∀ t ∈ Mesh3D.triangles c, ∀ u ∈ Mesh3D.triangles c,
      0 < Mesh3D.cross2 c t * Mesh3D.cross2 c u) := by
  have hneg : ∀ t ∈ Mesh3D.triangles c, Mesh3D.cross2 c t < 0 := by
    intro t ht
    obtain ⟨i, j, hi, hj, hshape⟩ := Mesh3D.mem_triangles c t ht
    have hi' : i + 1 < c.rows := by omega
    have hj' : j + 1 < c.cols := by omega
    have hmem : t ∈ Mesh3D.quadTris c i j := by
      rcases hshape with rfl | rfl <;> simp [Mesh3D.quadTris]
    rw [Mesh3D.cross2_quadTris c i j hi' hj' t hmem]
    have hcc : 0 < c.cols - 1 := by omega
    have hrr : 0 < c.rows - 1 := by omega
    have hccq : (0 : ℚ) < ((c.cols - 1 : ℕ) : ℚ) := by exact_mod_cast hcc
    have hrrq : (0 : ℚ) < ((c.rows - 1 : ℕ) : ℚ) := by exact_mod_cast hrr
    have hdx : 0 < c.width / ((c.cols - 1 : ℕ) : ℚ) := div_pos hw hccq
    have hdz : 0 < c.height / ((c.rows - 1 : ℕ) : ℚ) := div_pos hh hrrq
    have := mul_pos hdz hdx
    linarith
  exact ⟨hneg, fun t ht u hu =>
    mul_pos_of_neg_of_neg (hneg t ht) (hneg u hu)⟩

/-- C5 witness: the 3x3 grid with extents 2x2 - all of its triangles
have negative cross product, and all pairs agree in sign. -/
theorem C5_winding_uniform_witness :
    2 ≤ Mesh3D.demoCfg3x3.cols ∧ 2 ≤ Mesh3D.demoCfg3x3.rows ∧
    0 < Mesh3D.demoCfg3x3.width ∧ 0 < Mesh3D.demoCfg3x3.height ∧
    ((∀ t ∈ Mesh3D.triangles Mesh3D.demoCfg3x3,
        Mesh3D.cross2 Mesh3D.demoCfg3x3 t < 0) ∧
     (∀ t ∈ Mesh3D.triangles Mesh3D.demoCfg3x3,
        ∀ u ∈ Mesh3D.triangles Mesh3D.demoCfg3x3,
        0 < Mesh3D.cross2 Mesh3D.demoCfg3x3 t *
          Mesh3D.cross2 Mesh3D.demoCfg3x3 u)) :=
  ⟨by decide, by decide, by norm_num [Mesh3D.demoCfg3x3],
    by norm_num [Mesh3D.demoCfg3x3],
    C5_winding_uniform Mesh3D.demoCfg3x3 (by decide) (by decide)
      (by norm_num [Mesh3D.demoCfg3x3])
      (by norm_num [Mesh3D.demoCfg3x3])⟩

/-- C6: grid mesh construction fails with the configuration error
exactly when `cols < 2` or `rows < 2` or `width ≤ 0` or `height ≤ 0`;
otherwise it succeeds, returning the validated mesh (construction
either fails up front or yields a mesh on which the pure generator
functions are total). -/
theorem C6_construction_validates (c : Mesh3D.GridConfig) :
    (Mesh3D.mkMesh3D c = Except.error Mesh3D.configErrorMsg ↔
      (c.cols < 2 ∨ c.rows < 2 ∨ c.width ≤ 0 ∨ c.height ≤ 0)) ∧
    (Mesh3D.mkMesh3D c = Except.error Mesh3D.configErrorMsg ∨
      Mesh3D.mkMesh3D c = Except.ok ⟨c⟩) := by
  unfold Mesh3D.mkMesh3D
  constructor
  · split
    · next h => simpa using h
    · next h => simpa using h
  · split
    · exact Or.inl rfl
    · exact Or.inr rfl

/-- C7: `withSeed(0)` silently coerces the zero seed to a fixed non-zero
constant; every constructed state is non-zero; `next()` keeps any
reachable (non-zero 32-bit) state non-zero and is a bijection on the
non-zero state space. -/
theorem C7_rng_nonzero_bijection (x : ℕ) (hx0 : 0 < x)
    (hxlt : x < XorShiftRng.m32) :
    XorShiftRng.withSeed 0 = XorShiftRng.seedFallback ∧
    XorShiftRng.seedFallback ≠ 0 ∧
    (∀ s, XorShiftRng.withSeed s ≠ 0) ∧
    0 < XorShiftRng.xsNext x ∧
    XorShiftRng.xsNext x < XorShiftRng.m32 ∧
    Set.BijOn XorShiftRng.xsNext XorShiftRng.nzStates
      XorShiftRng.nzStates := by
  refine ⟨by decide, by decide, ?_, ?_, XorShiftRng.xsNext_lt x, ?_⟩
  · intro s
    unfold XorShiftRng.withSeed
    split
    · decide
    · next h => exact h
  · exact Nat.pos_of_ne_zero
      (XorShiftRng.xsNext_ne_zero x (by omega) hxlt)
  · exact (XorShiftRng.nzStates_finite.injOn_iff_bijOn_of_mapsTo
      XorShiftRng.nzStates_mapsTo).mp
      (fun a ha b hb hab => XorShiftRng.xsNext_injOn a b ha.2 hb.2 hab)

/-- C7 witness: the state 1 is non-zero and 32-bit, and the theorem's
conclusions hold there. -/
theorem C7_rng_nonzero_bijection_witness :
    0 < 1 ∧ 1 < XorShiftRng.m32 ∧
    (XorShiftRng.withSeed 0 = XorShiftRng.seedFallback ∧
     XorShiftRng.seedFallback ≠ 0 ∧
     (∀ s, XorShiftRng.withSeed s ≠ 0) ∧
     0 < XorShiftRng.xsNext 1 ∧
     XorShiftRng.xsNext 1 < XorShiftRng.m32 ∧
     Set.BijOn XorShiftRng.xsNext XorShiftRng.nzStates
       XorShiftRng.nzStates) :=
  ⟨by decide, by decide,
    C7_rng_nonzero_bijection 1 (by decide) (by decide)⟩

/-- C8: in `perlinTest`'s tick loop, `n` is computed by `Math.min`
applied to a single argument, which returns it unchanged, so `n` equals
`0.9·noiseHighCloud^6 + 1.2·noiseLowCloud + 0.6·noiseVeryLowCloud` with
no upper clamp; at `noiseHighCloud = noiseLowCloud = 1` (and
`noiseVeryLowCloud = 0`) it exceeds 1. -/
theorem C8_cloud_intensity_unclamped (h l v : ℚ) :
    Demo.cloudIntensity h l v =
      9/10 * h ^ 6 + 12/10 * l + 6/10 * v ∧
    1 < Demo.cloudIntensity 1 1 0 := by
  constructor
  · unfold Demo.cloudIntensity Demo.jsMinOne
    ring
  · norm_num [Demo.cloudIntensity, Demo.jsMinOne]

/-- C9: given noise values in their ranges, every colour component the
loop writes lies in [0, 1] - the snow branch gives R, G in [0.7, 0.8]
and B in [0.8, 1.0], the terrain branch gives R in [0.1, 0.5], G in
[0.2, 0.7] and B in [0, 0.2] - and the write offsets `3*(i*cols+j)+k`
cover every entry of the colour array. -/
theorem C9_colour_components_in_range (rows cols : ℕ)
    (height nsl nR nG nB ns1 ns2 : ℚ)
    (hrows : 0 < rows) (hcols : 0 < cols)
    (hnsl0 : -1 ≤ nsl) (hnsl1 : nsl ≤ 1)
    (hR0 : 0 ≤ nR) (hR1 : nR ≤ 1)
    (hG0 : 0 ≤ nG) (hG1 : nG ≤ 1)
    (hB0 : 0 ≤ nB) (hB1 : nB ≤ 1)
    (hs10 : 0 ≤ ns1) (hs11 : ns1 ≤ 1)
    (hs20 : 0 ≤ ns2) (hs21 : ns2 ≤ 1) :
    (6/10 + nsl * (1/10) < height →
      7/10 ≤ (Demo.colourAt height nsl nR nG nB ns1 ns2).1 ∧
      (Demo.colourAt height nsl nR nG nB ns1 ns2).1 ≤ 8/10 ∧
      7/10 ≤ (Demo.colourAt height nsl nR nG nB ns1 ns2).2.1 ∧
      (Demo.colourAt height nsl nR nG nB ns1 ns2).2.1 ≤ 8/10 ∧
      8/10 ≤ (Demo.colourAt height nsl nR nG nB ns1 ns2).2.2 ∧
      (Demo.colourAt height nsl nR nG nB ns1 ns2).2.2 ≤ 1) ∧
    (height ≤ 6/10 + nsl * (1/10) →
      1/10 ≤ (Demo.colourAt height nsl nR nG nB ns1 ns2).1 ∧
      (Demo.colourAt height nsl nR nG nB ns1 ns2).1 ≤ 5/10 ∧
      2/10 ≤ (Demo.colourAt height nsl nR nG nB ns1 ns2).2.1 ∧
      (Demo.colourAt height nsl nR nG nB ns1 ns2).2.1 ≤ 7/10 ∧
      0 ≤ (Demo.colourAt height nsl nR nG nB ns1 ns2).2.2 ∧
      (Demo.colourAt height nsl nR nG nB ns1 ns2).2.2 ≤ 2/10) ∧
    (0 ≤ (Demo.colourAt height nsl nR nG nB ns1 ns2).1 ∧
      (Demo.colourAt height nsl nR nG nB ns1 ns2).1 ≤ 1) ∧
    (0 ≤ (Demo.colourAt height nsl nR nG nB ns1 ns2).2.1 ∧
      (Demo.colourAt height nsl nR nG nB ns1 ns2).2.1 ≤ 1) ∧
    (0 ≤ (Demo.colourAt height nsl nR nG nB ns1 ns2).2.2 ∧
      (Demo.colourAt height nsl nR nG nB ns1 ns2).2.2 ≤ 1) ∧
    (∀ m, m < 3 * (rows * cols) → ∃ i j k, i < rows ∧ j < cols ∧
      k < 3 ∧ m = Demo.colourBase cols i j + k) := by
  have coverage : ∀ m, m < 3 * (rows * cols) → ∃ i j k, i < rows ∧
      j < cols ∧ k < 3 ∧ m = Demo.colourBase cols i j + k := by
    intro m hm
    refine ⟨m / 3 / cols, m / 3 % cols, m % 3, ?_, ?_, ?_, ?_⟩
    · rw [Nat.div_lt_iff_lt_mul hcols]
      rw [Nat.div_lt_iff_lt_mul (by norm_num : (0:ℕ) < 3)]
      calc m < 3 * (rows * cols) := hm
        _ = rows * cols * 3 := by ring
    · exact Nat.mod_lt _ hcols
    · exact Nat.mod_lt _ (by norm_num)
    · unfold Demo.colourBase
      rw [Nat.mul_comm (m / 3 / cols) cols, Nat.div_add_mod,
        Nat.div_add_mod]
  rcases le_or_lt height (6/10 + nsl * (1/10)) with hcond | hcond
  · have hif : ¬ (height > 6/10 + nsl * (1/10)) := not_lt.mpr hcond
    unfold Demo.colourAt
    rw [if_neg hif]
    dsimp only
    exact ⟨fun hc => absurd hc hif,
      fun _ => ⟨by linarith, by linarith, by linarith, by linarith,
        by linarith, by linarith⟩,
      ⟨by linarith, by linarith⟩, ⟨by linarith, by linarith⟩,
      ⟨by linarith, by linarith⟩, coverage⟩
  · have hif : height > 6/10 + nsl * (1/10) := hcond
    unfold Demo.colourAt
    rw [if_pos hif]
    dsimp only
    exact ⟨fun _ => ⟨by linarith, by linarith, by linarith, by linarith,
        by linarith, by linarith⟩,
      fun hc => absurd hif (not_lt.mpr hc),
      ⟨by linarith, by linarith⟩, ⟨by linarith, by linarith⟩,
      ⟨by linarith, by linarith⟩, coverage⟩

/-- C9 witness: a concrete vertex (1x1 grid, all noise values 0,
height 0 - terrain branch) at which the theorem applies. -/
theorem C9_colour_components_witness :
    (0 < 1 ∧ (-1 : ℚ) ≤ 0 ∧ (0 : ℚ) ≤ 1) ∧
    (0 ≤ (Demo.colourAt 0 0 0 0 0 0 0).1 ∧
      (Demo.colourAt 0 0 0 0 0 0 0).1 ≤ 1) ∧
    (∀ m, m < 3 * (1 * 1) → ∃ i j k, i < 1 ∧ j < 1 ∧ k < 3 ∧
      m = Demo.colourBase 1 i j + k) := by
  have h := C9_colour_components_in_range 1 1 0 0 0 0 0 0 0
    (by decide) (by decide) (by norm_num) (by norm_num) (by norm_num)
    (by norm_num) (by norm_num) (by norm_num) (by norm_num)
    (by norm_num) (by norm_num) (by norm_num) (by norm_num)
    (by norm_num)
  exact ⟨⟨by decide, by norm_num, by norm_num⟩, h.2.2.1, h.2.2.2.2.2⟩

/-- C10: the `sky` helper divides by `fakeY = y + horizDrop`; for every
call made from `perlinTest`'s tick loop (where `horizDrop = 0` and
`y = 1 - 2 i / pxHeight` with loop bound `i < pxHeight / 2`) the divisor
is strictly positive, so the division-by-zero case is unreachable. -/
theorem C10_sky_divisor_pos (pxHeight : ℚ) (i : ℕ)
    (h : (i : ℚ) < pxHeight / 2) :
    (∀ fl sh hd x y, Demo.sky fl sh hd x y =
      ((x * sh) / Demo.skyDivisor hd y,
        (sh * fl) / Demo.skyDivisor hd y)) ∧
    0 < Demo.skyDivisor 0 (Demo.tickY pxHeight i) := by
  constructor
  · intro fl sh hd x y
    rfl
  · have hi0 : (0 : ℚ) ≤ (i : ℚ) := Nat.cast_nonneg i
    have hp : 0 < pxHeight := by linarith
    have h2 : (i : ℚ) * 2 < pxHeight := by linarith
    unfold Demo.skyDivisor Demo.tickY
    have hd1 : (i : ℚ) / pxHeight * 2 < 1 := by
      rw [div_mul_eq_mul_div, div_lt_one hp]
      exact h2
    linarith

/-- C10 witness: a concrete in-loop call site (`pxHeight = 2`, `i = 0`)
satisfying the loop bound, at which the divisor is positive. -/
theorem C10_sky_divisor_pos_witness :
    ((0 : ℕ) : ℚ) < 2 / 2 ∧
    0 < Demo.skyDivisor 0 (Demo.tickY 2 0) :=
  ⟨by norm_num, (C10_sky_divisor_pos 2 0 (by norm_num)).2⟩
